import Mathlib

/-!
Verification of `src/airflow/dags/polygonetl_airflow/build_parse_dag.py`.

The module builds, per dataset folder, an Airflow DAG that
  * validates the folder's JSON table definitions (`validate_definition_files`),
  * creates one parse task per definition, each downstream of a single
    `ExternalTaskSensor`,
  * wires dependency edges extracted from the `parser.contract_address`
    field with a `ref(...)` tag,
  * funnels every parse task into a `parse_all_checkpoint` barrier task,
  * and creates one view task per SQL file, each downstream of the barrier.

The embedding below translates the pure graph-construction logic.  File
system access (`glob` in `get_list_of_files`, `read_json_file`, `read_file`)
is external I/O, so the list of JSON definition files (path plus decoded
content) and the list of SQL file paths are parameters of the embedded
functions.  Raising `ValueError` is modelled by `Except.error` carrying the
message string; an Airflow operator is modelled by a `Task` value and the
`a >> b` wiring by an edge pair `(a, b)`.
-/

namespace BuildParseDag

/-! ### Strings as character lists

Python string operations used by the module, embedded on `List Char`
(`String` in this Lean version hides its character list behind UTF-8
positions, so we recurse on `String.data` directly). -/

/-- Python `s.split(sep)` for a one-character separator: splits on every
occurrence, keeping empty components, and yields `[""]` on the empty
string. -/
def splitOnChar (sep : Char) : List Char → List (List Char)
  | [] => [[]]
  | c :: cs =>
    match splitOnChar sep cs with
    | [] => if c = sep then [[], [c]] else [[c]]
    | h :: t => if c = sep then [] :: h :: t else (c :: h) :: t

/-- `pat.isPrefixOf l` on raw character lists. -/
def charsPrefixOf : List Char → List Char → Bool
  | [], _ => true
  | _ :: _, [] => false
  | a :: as, b :: bs => a == b && charsPrefixOf as bs

/-- `pat` occurs somewhere inside `l` (Python `pat in s`). -/
def charsInfixOf (pat : List Char) : List Char → Bool
  | [] => charsPrefixOf pat []
  | c :: cs => charsPrefixOf pat (c :: cs) || charsInfixOf pat cs

/-- `containsSubstr s pat`: the string `s` contains `pat` as a contiguous
substring.  Used to state that an error message "names" an identifier. -/
def containsSubstr (s pat : String) : Bool :=
  charsInfixOf pat.data s.data

/-- Python `s.replace('.json', '')`: deletes every occurrence of `.json`,
scanning left to right, non-overlapping.  Structural recursion over a fuel
bound (the string length) so that the kernel can evaluate it. -/
def removeJsonFuel : Nat → List Char → List Char
  | 0, cs => cs
  | _ + 1, [] => []
  | fuel + 1, c :: rest =>
    if charsPrefixOf ".json".data (c :: rest) then
      removeJsonFuel fuel ((c :: rest).drop 5)
    else
      c :: removeJsonFuel fuel rest

/-- Python `str.lower()` for the ASCII names appearing in definitions. -/
def lowerString (s : String) : String :=
  String.mk (s.data.map Char.toLower)

/-- `json_file.split('/')[-1]`: the last path component. -/
def lastPathComponent (path : String) : String :=
  String.mk ((splitOnChar '/' path.data).getLastD [])

/-- `json_file.split('/')[-1].replace('.json', '')` from
`validate_definition_files`. -/
def fileNameOf (path : String) : String :=
  String.mk (removeJsonFuel path.data.length (lastPathComponent path).data)

/-- `dataset_folder.split('/')[-1]` from `validate_definition_files`. -/
def datasetFolderNameOf (dataset_folder : String) : String :=
  String.mk ((splitOnChar '/' dataset_folder.data).getLastD [])

/-- `os.path.splitext(name)[0]`: drops the last dot-extension of a base
name; a base name consisting only of leading dots has no extension.
Helper: split a character list at its last `'.'`. -/
def splitAtLastDot : List Char → Option (List Char × List Char)
  | [] => none
  | c :: cs =>
    match splitAtLastDot cs with
    | some (r, e) => some (c :: r, e)
    | none => if c = '.' then some ([], cs) else none

/-- `os.path.splitext(base_name)[0]` as used on SQL file base names. -/
def splitextRoot (name : String) : String :=
  match splitAtLastDot name.data with
  | none => name
  | some (root, _) => if root.all (fun c => c = '.') then name else String.mk root

/-- View name of a SQL file path:
`os.path.splitext(os.path.basename(sql_file))[0]`. -/
def viewNameOf (sql_file : String) : String :=
  splitextRoot (lastPathComponent sql_file)

/-! ### The reference-tag extractor -/

/-- One attempted match of the reference regex at the current position:
everything up to the first `'` quote, plus the remainder after it. -/
def splitAtQuote : List Char → Option (List Char × List Char)
  | [] => none
  | c :: cs =>
    if c = '\'' then some ([], cs)
    else
      match splitAtQuote cs with
      | some (nm, r) => some (c :: nm, r)
      | none => none

/-- Modelled from the spec: the repository imports `ref_regex` from
`polygonetl_airflow.parse.parse_logic`, which is not part of this source
snapshot.  The spec describes it as "a fixed textual pattern" that
"reads dependency table names out of a contract-address-like field", the
reference tag being "a textual marker inside a parser configuration field
pointing at another table's name".  We model the conventional tag shape
`ref('table_name')` with a non-empty name containing no quote: this
function matches that pattern at one position, returning the captured
name and the characters after the whole match. -/
def matchRefAt (cs : List Char) : Option (String × List Char) :=
  if charsPrefixOf "ref('".data cs then
    match splitAtQuote (cs.drop 5) with
    | some (nm, r) =>
      match nm, r with
      | [], _ => none
      | _ :: _, ')' :: r2 => some (String.mk nm, r2)
      | _ :: _, _ => none
    | none => none
  else none

/-- Modelled from the spec: scanning pass of `ref_regex.findall`, moving
left to right, restarting after each complete match.  Fuel-indexed
structural recursion (fuel = number of characters still scannable). -/
def scanRefsFuel : Nat → List Char → List String
  | 0, _ => []
  | _ + 1, [] => []
  | fuel + 1, c :: rest =>
    match matchRefAt (c :: rest) with
    | some (nm, after) => nm :: scanRefsFuel fuel after
    | none => scanRefsFuel fuel rest

/-- Modelled from the spec: `ref_regex.findall(contract_address)`, the
list of dependency table names referenced from a contract-address field. -/
def refFindall (s : String) : List String :=
  scanRefsFuel s.data.length s.data

/-! ### Data model -/

/-- The `table` section of a JSON table definition.  A `none` field models
a key that is absent (or bound to a falsy value, which the validator
treats identically). -/
structure TableSection where
  dataset_name : Option String
  table_name : Option String
deriving DecidableEq

/-- The `parser` section; only `contract_address` is consulted by this
module.  `none` models JSON `null`. -/
structure ParserSection where
  contract_address : Option String
deriving DecidableEq

/-- A decoded JSON table definition.  `table = none` models a missing or
empty (falsy) `table` object. -/
structure TableDefinition where
  table : Option TableSection
  parser : ParserSection
deriving DecidableEq

/-- A JSON definition file: its path and its decoded content
(`read_json_file` is external I/O, so the content is a parameter). -/
structure JsonFile where
  path : String
  definition : TableDefinition
deriving DecidableEq

/-- `table_definition['table']['table_name']`. -/
def tableNameOf (d : TableDefinition) : Option String :=
  d.table.bind (fun t => t.table_name)

/-- `table_definition['table']['dataset_name']`. -/
def datasetNameOf (d : TableDefinition) : Option String :=
  d.table.bind (fun t => t.dataset_name)

/-- Total projection of an optional string; `build_parse_dag` only reaches
these lookups after validation has guaranteed the field is present. -/
def strOrEmpty : Option String → String
  | none => ""
  | some s => s

/-- Lines 114-119 of `create_parse_task`: the dependency names of one
definition.  When `contract_address` is `None` the extractor is not
applied and the list is empty. -/
def depsOf (d : TableDefinition) : List String :=
  match d.parser.contract_address with
  | none => []
  | some ca => refFindall ca

/-! ### Validation (`validate_definition_files`) -/

/-- The mismatch message of lines 225-226. -/
def datasetMismatchMsg (dn dataset_folder_name : String) : String :=
  "dataset_name " ++ dn ++ " is not equal to dataset_folder_name " ++ dataset_folder_name

/-- The per-file checks of the validator loop body, in source order,
returning the lowercased table name that the loop appends to
`all_lowercase_table_names`. -/
def perFileLowerName (dataset_folder_name : String) (f : JsonFile) : Except String String :=
  match f.definition.table with
  | none => Except.error ("table is empty in file " ++ f.path)
  | some table =>
    match table.dataset_name with
    | none => Except.error ("dataset_name is empty in file " ++ f.path)
    | some dn =>
      if dn.data.isEmpty then
        Except.error ("dataset_name is empty in file " ++ f.path)
      else if dataset_folder_name ≠ dn then
        Except.error (datasetMismatchMsg dn dataset_folder_name)
      else
        match table.table_name with
        | none => Except.error ("table_name is empty in file " ++ f.path)
        | some tn =>
          if tn.data.isEmpty then
            Except.error ("table_name is empty in file " ++ f.path)
          else if fileNameOf f.path ≠ tn then
            Except.error ("file_name " ++ fileNameOf f.path ++ " doest match the table_name "
              ++ tn)
          else Except.ok (lowerString tn)

/-- The validator loop: first failing file raises; otherwise the list of
lowercased table names in file order. -/
def collectLowerNames (dataset_folder_name : String) : List JsonFile → Except String (List String)
  | [] => Except.ok []
  | f :: fs =>
    match perFileLowerName dataset_folder_name f with
    | Except.error e => Except.error e
    | Except.ok n =>
      match collectLowerNames dataset_folder_name fs with
      | Except.error e => Except.error e
      | Except.ok ns => Except.ok (n :: ns)

/-- Keys of `table_name_counts` in insertion order (Python dicts preserve
first-occurrence order). -/
def dedupKeepFirst : List String → List String
  | [] => []
  | n :: ns => n :: (dedupKeepFirst ns).filter (fun m => m != n)

/-- `[name for name, count in table_name_counts.items() if count > 1]`. -/
def nonUniqueTableNames (names : List String) : List String :=
  (dedupKeepFirst names).filter (fun n => decide (1 < names.count n))

/-- Python `','.join(l)`. -/
def joinComma : List String → String
  | [] => ""
  | [n] => n
  | n :: m :: ns => n ++ "," ++ joinComma (m :: ns)

/-- `validate_definition_files(dataset_folder)`, with the globbed JSON
files passed explicitly. -/
def validate_definition_files (dataset_folder : String) (json_files : List JsonFile) :
    Except String Unit :=
  match collectLowerNames (datasetFolderNameOf dataset_folder) json_files with
  | Except.error e => Except.error e
  | Except.ok names =>
    if 0 < (nonUniqueTableNames names).length then
      Except.error ("The following table names are not unique "
        ++ joinComma (nonUniqueTableNames names))
    else Except.ok ()

/-! ### Tasks and the DAG -/

/-- The Airflow operators created by `build_parse_dag`, abstracted to the
data this module attaches to them.  `validationError` is the
`PythonOperator(task_id='validation_error', ...)` placeholder carrying the
captured `ValueError` message; `parse` carries the table name (its task
id); `view` carries the view name (task id `create_view_<name>`). -/
inductive Task where
  | validationError (captured : String)
  | sensor
  | parse (table_name : String)
  | checkpoint
  | view (view_name : String)
deriving DecidableEq

/-- The `task_id` of each operator. -/
def Task.taskId : Task → String
  | Task.validationError _ => "validation_error"
  | Task.sensor => "wait_for_polygon_partition_dag"
  | Task.parse tn => tn
  | Task.checkpoint => "parse_all_checkpoint"
  | Task.view v => "create_view_" ++ v

/-- What happens when a task's callable runs, as far as this module
determines it: the validation placeholder re-raises the captured error;
every other task delegates its work to external collaborators (BigQuery,
the sensor poke), modelled as success here. -/
def Task.run : Task → Except String Unit
  | Task.validationError e => Except.error e
  | _ => Except.ok ()

def Task.isSensor : Task → Bool
  | Task.sensor => true
  | _ => false

def Task.isParse : Task → Bool
  | Task.parse _ => true
  | _ => false

def Task.isView : Task → Bool
  | Task.view _ => true
  | _ => false

def Task.isCheckpoint : Task → Bool
  | Task.checkpoint => true
  | _ => false

/-- The DAG under construction: operators in creation order, and the
`upstream >> downstream` edges. -/
structure Dag where
  tasks : List Task
  edges : List (Task × Task)
deriving DecidableEq

/-- Configuration of the `ExternalTaskSensor` created at lines 142-152. -/
structure ExternalTaskSensorConfig where
  task_id : String
  external_dag_id : String
  external_task_id : String
  execution_delta_minutes : Nat
  priority_weight : Nat
  mode : String
  retries : Nat
  poke_interval_seconds : Nat
  timeout_seconds : Nat
deriving DecidableEq

/-- `wait_for_ethereum_load_dag_task`: the sensor on the partition DAG's
`done` task. -/
def wait_for_ethereum_load_dag_task : ExternalTaskSensorConfig :=
  { task_id := "wait_for_polygon_partition_dag"
    external_dag_id := "polygon_partition_dag"
    external_task_id := "done"
    execution_delta_minutes := 30
    priority_weight := 0
    mode := "reschedule"
    retries := 20
    poke_interval_seconds := 5 * 60
    timeout_seconds := 60 * 60 * 30 }

/-- The message of the `ValueError` raised at lines 176-178 for an
unresolved dependency (typo "the the" as in the source). -/
def missingDepMsg (dependency : String) : String :=
  "Table " ++ dependency
    ++ " is not found in the the dataset. Check your ref() in contract_address field."

/-- The `(task_id, dependencies)` pairs recorded by the parse-task loop in
file order: `all_parse_tasks` keys paired with `task_dependencies`
values (the task id is the table name). -/
def parseEntriesOf (json_files : List JsonFile) : List (String × List String) :=
  json_files.map (fun f => (strOrEmpty (tableNameOf f.definition), depsOf f.definition))

/-- The parse-task ids (keys of `all_parse_tasks`) in creation order. -/
def parseIdsOf (json_files : List JsonFile) : List String :=
  json_files.map (fun f => strOrEmpty (tableNameOf f.definition))

/-- The inner dependency loop for one task: each dependency must be a
known parse task id, else the `ValueError` of lines 176-178 is raised;
otherwise an edge `dependency >> task` is added. -/
def wireOne (ids : List String) (task : String) : List String → Except String (List (Task × Task))
  | [] => Except.ok []
  | d :: ds =>
    if d ∈ ids then
      match wireOne ids task ds with
      | Except.error e => Except.error e
      | Except.ok es => Except.ok ((Task.parse d, Task.parse task) :: es)
    else Except.error (missingDepMsg d)

/-- Lines 173-181: for every task, wire its dependency edges, then the
edge `task >> checkpoint`. -/
def wireAll (ids : List String) : List (String × List String) → Except String (List (Task × Task))
  | [] => Except.ok []
  | (task, ds) :: rest =>
    match wireOne ids task ds with
    | Except.error e => Except.error e
    | Except.ok es =>
      match wireAll ids rest with
      | Except.error e => Except.error e
      | Except.ok es2 => Except.ok (es ++ (Task.parse task, Task.checkpoint) :: es2)

/-- View names of the SQL files, in glob order. -/
def viewNamesOf (sql_files : List String) : List String :=
  sql_files.map viewNameOf

/-- `build_parse_dag`: validation errors are caught and replaced by the
single `validation_error` placeholder task; afterwards the sensor, the
parse tasks (one per JSON file), the checkpoint barrier and the view
tasks (one per SQL file) are created in that order, with edges
`sensor >> parse`, `dep >> parse`, `parse >> checkpoint` and
`checkpoint >> view`.  The `ValueError` for an unresolved dependency is
raised outside the `try` block, so it propagates as `Except.error`. -/
def build_parse_dag (dataset_folder : String) (json_files : List JsonFile)
    (sql_files : List String) : Except String Dag :=
  match validate_definition_files dataset_folder json_files with
  | Except.error e => Except.ok { tasks := [Task.validationError e], edges := [] }
  | Except.ok _ =>
    match wireAll (parseIdsOf json_files) (parseEntriesOf json_files) with
    | Except.error e => Except.error e
    | Except.ok depEdges =>
      Except.ok
        { tasks := Task.sensor :: ((parseIdsOf json_files).map Task.parse
            ++ [Task.checkpoint] ++ (viewNamesOf sql_files).map Task.view)
          edges := (parseIdsOf json_files).map (fun t => (Task.sensor, Task.parse t))
            ++ depEdges
            ++ (viewNamesOf sql_files).map (fun v => (Task.checkpoint, Task.view v)) }

/-! ### Helper lemmas -/

theorem charsPrefixOf_append (m t : List Char) : charsPrefixOf m (m ++ t) = true := by
  induction m with
  | nil => rfl
  | cons c cs ih => simp [charsPrefixOf, ih]

theorem charsInfixOf_of_charsPrefixOf {m l : List Char} (h : charsPrefixOf m l = true) :
    charsInfixOf m l = true := by
  cases l with
  | nil => simpa [charsInfixOf] using h
  | cons c cs => simp [charsInfixOf, h]

theorem charsInfixOf_append_left (a : List Char) {m l : List Char}
    (h : charsInfixOf m l = true) : charsInfixOf m (a ++ l) = true := by
  induction a with
  | nil => simpa using h
  | cons c cs ih => simp [charsInfixOf, ih]

/-- A string of the form `a ++ m ++ b` contains (names) `m`. -/
theorem containsSubstr_sandwich (a m b : String) : containsSubstr (a ++ m ++ b) m = true := by
  have hdata : (a ++ m ++ b).data = a.data ++ (m.data ++ b.data) := by
    simp [String.data_append]
  simp only [containsSubstr, hdata]
  exact charsInfixOf_append_left a.data
    (charsInfixOf_of_charsPrefixOf (charsPrefixOf_append m.data b.data))

theorem containsSubstr_joinComma {m : String} :
    ∀ {l : List String}, m ∈ l → containsSubstr (joinComma l) m = true := by
  intro l
  induction l with
  | nil => intro h; cases h
  | cons n ns ih =>
    intro hm
    cases ns with
    | nil =>
      rcases List.mem_singleton.mp hm with rfl
      simp only [joinComma, containsSubstr]
      exact charsInfixOf_of_charsPrefixOf
        (by simpa using charsPrefixOf_append m.data [])
    | cons n2 ns2 =>
      rcases List.mem_cons.mp hm with rfl | hm2
      · simp only [joinComma, containsSubstr]
        have hdata : (m ++ "," ++ joinComma (n2 :: ns2)).data
            = m.data ++ (",".data ++ (joinComma (n2 :: ns2)).data) := by
          simp [String.data_append]
        rw [hdata]
        exact charsInfixOf_of_charsPrefixOf (charsPrefixOf_append m.data _)
      · simp only [joinComma, containsSubstr]
        have hdata : (n ++ "," ++ joinComma (n2 :: ns2)).data
            = (n.data ++ ",".data) ++ (joinComma (n2 :: ns2)).data := by
          simp [String.data_append]
        rw [hdata]
        exact charsInfixOf_append_left _ (ih hm2)

theorem mem_dedupKeepFirst {m : String} :
    ∀ {l : List String}, m ∈ l → m ∈ dedupKeepFirst l := by
  intro l
  induction l with
  | nil => intro h; cases h
  | cons n ns ih =>
    intro hm
    rcases List.mem_cons.mp hm with rfl | hm2
    · exact List.mem_cons_self _ _
    · by_cases hmn : m = n
      · exact hmn ▸ List.mem_cons_self _ _
      · exact List.mem_cons.mpr (Or.inr (List.mem_filter.mpr
          ⟨ih hm2, by simpa using hmn⟩))

/-- A name duplicated in the collected list appears in
`non_unique_table_names`. -/
theorem mem_nonUnique_of_count {names : List String} {m : String}
    (h : 2 ≤ names.count m) : m ∈ nonUniqueTableNames names := by
  have hmem : m ∈ names := List.count_pos_iff.mp (by omega)
  exact List.mem_filter.mpr ⟨mem_dedupKeepFirst hmem, by simpa using (by omega : 1 < names.count m)⟩

/-- With all names pairwise distinct the duplicate report is empty. -/
theorem nonUnique_eq_nil_of_nodup {names : List String} (h : names.Nodup) :
    nonUniqueTableNames names = [] := by
  apply List.filter_eq_nil_iff.mpr
  intro n _
  have := List.nodup_iff_count_le_one.mp h n
  simpa using (by omega : ¬ 1 < names.count n)

/-! ### Lemmas about the dependency wiring -/

theorem wireOne_ok_mem {ids : List String} {task : String} :
    ∀ {ds : List String} {es : List (Task × Task)}, wireOne ids task ds = Except.ok es →
      ∀ d ∈ ds, (Task.parse d, Task.parse task) ∈ es := by
  intro ds
  induction ds with
  | nil => intro es _ d hd; cases hd
  | cons d0 ds0 ih =>
    intro es h d hd
    simp only [wireOne] at h
    split at h
    · cases hrec : wireOne ids task ds0 with
      | error e => rw [hrec] at h; cases h
      | ok es0 =>
        rw [hrec] at h
        cases h
        rcases List.mem_cons.mp hd with rfl | hd2
        · exact List.mem_cons_self _ _
        · exact List.mem_cons.mpr (Or.inr (ih hrec d hd2))
    · cases h

theorem wireOne_error {ids : List String} {task : String} :
    ∀ {ds : List String} {e : String}, wireOne ids task ds = Except.error e →
      ∃ d ∈ ds, d ∉ ids ∧ e = missingDepMsg d := by
  intro ds
  induction ds with
  | nil => intro e h; cases h
  | cons d0 ds0 ih =>
    intro e h
    simp only [wireOne] at h
    split at h
    · cases hrec : wireOne ids task ds0 with
      | error e2 =>
        rw [hrec] at h
        cases h
        obtain ⟨d, hd, hnot, he⟩ := ih hrec
        exact ⟨d, List.mem_cons.mpr (Or.inr hd), hnot, he⟩
      | ok es0 => rw [hrec] at h; cases h
    · cases h
      next hnot => exact ⟨d0, List.mem_cons_self _ _, hnot, rfl⟩

theorem wireOne_error_of_missing {ids : List String} (task : String) :
    ∀ {ds : List String}, (∃ d ∈ ds, d ∉ ids) →
      ∃ e, wireOne ids task ds = Except.error e := by
  intro ds
  induction ds with
  | nil => rintro ⟨d, hd, _⟩; cases hd
  | cons d0 ds0 ih =>
    rintro ⟨d, hd, hnot⟩
    by_cases h0 : d0 ∈ ids
    · rcases List.mem_cons.mp hd with rfl | hd2
      · exact absurd h0 hnot
      · obtain ⟨e, he⟩ := ih ⟨d, hd2, hnot⟩
        exact ⟨e, by simp [wireOne, h0, he]⟩
    · exact ⟨missingDepMsg d0, by simp [wireOne, h0]⟩

theorem wireAll_ok_mem {ids : List String} :
    ∀ {entries : List (String × List String)} {es : List (Task × Task)},
      wireAll ids entries = Except.ok es →
      ∀ p ∈ entries, (Task.parse p.1, Task.checkpoint) ∈ es ∧
        ∀ d ∈ p.2, (Task.parse d, Task.parse p.1) ∈ es := by
  intro entries
  induction entries with
  | nil => intro es _ p hp; cases hp
  | cons q rest ih =>
    intro es h p hp
    obtain ⟨task, ds⟩ := q
    simp only [wireAll] at h
    cases h1 : wireOne ids task ds with
    | error e => rw [h1] at h; cases h
    | ok es1 =>
      rw [h1] at h
      cases h2 : wireAll ids rest with
      | error e => rw [h2] at h; cases h
      | ok es2 =>
        rw [h2] at h
        cases h
        rcases List.mem_cons.mp hp with rfl | hp2
        · constructor
          · exact List.mem_append.mpr (Or.inr (List.mem_cons_self _ _))
          · intro d hd
            exact List.mem_append.mpr (Or.inl (wireOne_ok_mem h1 d hd))
        · obtain ⟨hc, hdeps⟩ := ih h2 p hp2
          constructor
          · exact List.mem_append.mpr (Or.inr (List.mem_cons.mpr (Or.inr hc)))
          · intro d hd
            exact List.mem_append.mpr (Or.inr (List.mem_cons.mpr (Or.inr (hdeps d hd))))

theorem wireAll_error {ids : List String} :
    ∀ {entries : List (String × List String)} {e : String},
      wireAll ids entries = Except.error e →
      ∃ d, d ∉ ids ∧ e = missingDepMsg d := by
  intro entries
  induction entries with
  | nil => intro e h; cases h
  | cons q rest ih =>
    intro e h
    obtain ⟨task, ds⟩ := q
    simp only [wireAll] at h
    cases h1 : wireOne ids task ds with
    | error e1 =>
      rw [h1] at h
      cases h
      obtain ⟨d, _, hnot, he⟩ := wireOne_error h1
      exact ⟨d, hnot, he⟩
    | ok es1 =>
      rw [h1] at h
      cases h2 : wireAll ids rest with
      | error e2 => rw [h2] at h; cases h; exact ih h2
      | ok es2 => rw [h2] at h; cases h

theorem wireAll_error_of_missing {ids : List String} :
    ∀ {entries : List (String × List String)},
      (∃ p ∈ entries, ∃ d ∈ p.2, d ∉ ids) →
      ∃ e, wireAll ids entries = Except.error e := by
  intro entries
  induction entries with
  | nil => rintro ⟨p, hp, _⟩; cases hp
  | cons q rest ih =>
    rintro ⟨p, hp, d, hd, hnot⟩
    obtain ⟨task, ds⟩ := q
    rcases List.mem_cons.mp hp with rfl | hp2
    · obtain ⟨e, he⟩ := wireOne_error_of_missing task ⟨d, hd, hnot⟩
      exact ⟨e, by simp [wireAll, he]⟩
    · cases h1 : wireOne ids task ds with
      | error e1 => exact ⟨e1, by simp [wireAll, h1]⟩
      | ok es1 =>
        obtain ⟨e, he⟩ := ih ⟨p, hp2, d, hd, hnot⟩
        exact ⟨e, by simp [wireAll, h1, he]⟩

theorem wireOne_ok_shape {ids : List String} {task : String} :
    ∀ {ds : List String} {es : List (Task × Task)}, wireOne ids task ds = Except.ok es →
      ∀ x ∈ es, ∃ d, x = (Task.parse d, Task.parse task) := by
  intro ds
  induction ds with
  | nil => intro es h x hx; cases h; cases hx
  | cons d0 ds0 ih =>
    intro es h x hx
    simp only [wireOne] at h
    split at h
    · cases hrec : wireOne ids task ds0 with
      | error e => rw [hrec] at h; cases h
      | ok es0 =>
        rw [hrec] at h
        cases h
        rcases List.mem_cons.mp hx with rfl | hx2
        · exact ⟨d0, rfl⟩
        · exact ih hrec x hx2
    · cases h

/-- Every edge produced by the dependency-wiring loop either targets a
parse task (a `dep >> task` edge) or is a `task >> checkpoint` edge. -/
theorem wireAll_ok_shape {ids : List String} :
    ∀ {entries : List (String × List String)} {es : List (Task × Task)},
      wireAll ids entries = Except.ok es →
      ∀ x ∈ es, (∃ d t, x = (Task.parse d, Task.parse t)) ∨
        ∃ t, x = (Task.parse t, Task.checkpoint) := by
  intro entries
  induction entries with
  | nil => intro es h x hx; cases h; cases hx
  | cons q rest ih =>
    intro es h x hx
    obtain ⟨task, ds⟩ := q
    simp only [wireAll] at h
    cases h1 : wireOne ids task ds with
    | error e => rw [h1] at h; cases h
    | ok es1 =>
      rw [h1] at h
      cases h2 : wireAll ids rest with
      | error e => rw [h2] at h; cases h
      | ok es2 =>
        rw [h2] at h
        cases h
        rcases List.mem_append.mp hx with hx1 | hx2
        · obtain ⟨d, rfl⟩ := wireOne_ok_shape h1 x hx1
          exact Or.inl ⟨d, task, rfl⟩
        · rcases List.mem_cons.mp hx2 with rfl | hx3
          · exact Or.inr ⟨task, rfl⟩
          · exact ih h2 x hx3

/-! ### Lemmas about `build_parse_dag` -/

theorem parseEntriesOf_map_fst (files : List JsonFile) :
    (parseEntriesOf files).map Prod.fst = parseIdsOf files := by
  simp [parseEntriesOf, parseIdsOf]

/-- Lines 68-87: a caught validation error yields the placeholder DAG. -/
theorem build_of_validate_error {folder : String} {files : List JsonFile}
    {sqls : List String} {e : String}
    (h : validate_definition_files folder files = Except.error e) :
    build_parse_dag folder files sqls
      = Except.ok { tasks := [Task.validationError e], edges := [] } := by
  simp only [build_parse_dag, h]

/-- Shape of a successfully constructed DAG. -/
theorem build_ok_elim {folder : String} {files : List JsonFile} {sqls : List String}
    {dag : Dag} (hv : validate_definition_files folder files = Except.ok ())
    (hb : build_parse_dag folder files sqls = Except.ok dag) :
    ∃ depEdges, wireAll (parseIdsOf files) (parseEntriesOf files) = Except.ok depEdges ∧
      dag.tasks = Task.sensor :: ((parseIdsOf files).map Task.parse
        ++ [Task.checkpoint] ++ (viewNamesOf sqls).map Task.view) ∧
      dag.edges = (parseIdsOf files).map (fun t => (Task.sensor, Task.parse t))
        ++ depEdges ++ (viewNamesOf sqls).map (fun v => (Task.checkpoint, Task.view v)) := by
  simp only [build_parse_dag, hv] at hb
  cases hw : wireAll (parseIdsOf files) (parseEntriesOf files) with
  | error e => rw [hw] at hb; cases hb
  | ok depEdges =>
    rw [hw] at hb
    cases hb
    exact ⟨depEdges, rfl, rfl, rfl⟩

/-- `i`-before-`j` creation order inside the task list. -/
def createdBefore (l : List Task) (t u : Task) : Prop :=
  ∃ i j : Nat, i < j ∧ l[i]? = some t ∧ l[j]? = some u

theorem createdBefore_of_mem_left {pre post : List Task} {t u : Task} (h : t ∈ pre) :
    createdBefore (pre ++ u :: post) t u := by
  obtain ⟨i, hi⟩ := List.mem_iff_getElem?.mp h
  have hlt : i < pre.length := by
    obtain ⟨hlt, -⟩ := List.getElem?_eq_some_iff.mp hi
    exact hlt
  refine ⟨i, pre.length, hlt, ?_, ?_⟩
  · rw [List.getElem?_append, if_pos hlt]; exact hi
  · rw [List.getElem?_append, if_neg (by omega)]
    simp

theorem containsSubstr_append_right (a m : String) : containsSubstr (a ++ m) m = true := by
  simp only [containsSubstr, String.data_append]
  exact charsInfixOf_append_left a.data
    (charsInfixOf_of_charsPrefixOf (by simpa using charsPrefixOf_append m.data []))

theorem containsSubstr_append_left_str (a : String) {s m : String}
    (h : containsSubstr s m = true) : containsSubstr (a ++ s) m = true := by
  simp only [containsSubstr, String.data_append]
  exact charsInfixOf_append_left a.data h

/-! ### Lemmas about the validator -/

theorem data_isEmpty_false_of_ne {s : String} (h : s ≠ "") : s.data.isEmpty = false := by
  cases s with
  | mk data =>
    cases data with
    | nil => exact absurd rfl h
    | cons c cs => rfl

/-- The per-file invariants of one definition: a non-empty `table` section
whose `dataset_name` equals the folder name, whose `table_name` is
non-empty and equals the file's base name with the `.json` extension
stripped (as the validator computes it, case-sensitively). -/
def WellFormedFile (dataset_folder_name : String) (f : JsonFile) : Prop :=
  ∃ t tn, f.definition.table = some t ∧ t.dataset_name = some dataset_folder_name ∧
    dataset_folder_name ≠ "" ∧ t.table_name = some tn ∧ tn ≠ "" ∧ fileNameOf f.path = tn

/-- Like `WellFormedFile` but with an arbitrary declared `dataset_name`:
every per-file check other than the folder/dataset match passes. -/
def WellFormedAfterDataset (f : JsonFile) : Prop :=
  ∃ t tn dn, f.definition.table = some t ∧ t.dataset_name = some dn ∧ dn ≠ "" ∧
    t.table_name = some tn ∧ tn ≠ "" ∧ fileNameOf f.path = tn

theorem perFile_ok_of_wellFormed {fname : String} {f : JsonFile}
    (h : WellFormedFile fname f) :
    perFileLowerName fname f = Except.ok (lowerString (strOrEmpty (tableNameOf f.definition))) := by
  obtain ⟨t, tn, htab, hdn, hfne, htn, htne, hfile⟩ := h
  simp [perFileLowerName, htab, hdn, htn, hfile, data_isEmpty_false_of_ne hfne,
    data_isEmpty_false_of_ne htne, tableNameOf, strOrEmpty]

/-- The names the validator collects when every file is well formed. -/
def lowerNamesOf (files : List JsonFile) : List String :=
  files.map (fun f => lowerString (strOrEmpty (tableNameOf f.definition)))

theorem collect_ok_of_wellFormed {fname : String} :
    ∀ {files : List JsonFile}, (∀ f ∈ files, WellFormedFile fname f) →
      collectLowerNames fname files = Except.ok (lowerNamesOf files) := by
  intro files
  induction files with
  | nil => intro _; rfl
  | cons f fs ih =>
    intro h
    have h1 := perFile_ok_of_wellFormed (h f (List.mem_cons_self _ _))
    have h2 := ih (fun g hg => h g (List.mem_cons.mpr (Or.inr hg)))
    simp [collectLowerNames, h1, h2, lowerNamesOf]

/-- If every file passes every check except possibly the folder/dataset
match, and some file declares a `dataset_name` different from the folder
name, the validator loop stops at the first such file with the mismatch
message. -/
theorem collect_mismatch {fname : String} :
    ∀ {files : List JsonFile}, (∀ f ∈ files, WellFormedAfterDataset f) →
      (∃ f ∈ files, ∃ dn, datasetNameOf f.definition = some dn ∧ dn ≠ fname) →
      ∃ dn, dn ≠ fname ∧ (∃ f ∈ files, datasetNameOf f.definition = some dn) ∧
        collectLowerNames fname files = Except.error (datasetMismatchMsg dn fname) := by
  intro files
  induction files with
  | nil => rintro _ ⟨f, hf, _⟩; cases hf
  | cons f0 fs ih =>
    rintro hwf ⟨f, hf, dn, hdn, hne⟩
    obtain ⟨t, tn, dn0, htab, hdn0, hdn0ne, htn, htnne, hfile⟩ :=
      hwf f0 (List.mem_cons_self _ _)
    by_cases hmatch : dn0 = fname
    · -- the head passes; the mismatching file is in the tail
      have hhead : perFileLowerName fname f0 = Except.ok (lowerString tn) := by
        have : WellFormedFile fname f0 :=
          ⟨t, tn, htab, hmatch ▸ hdn0, hmatch ▸ hdn0ne, htn, htnne, hfile⟩
        have := perFile_ok_of_wellFormed this
        simpa [tableNameOf, htab, htn, strOrEmpty] using this
      have htail : ∃ g ∈ fs, ∃ d, datasetNameOf g.definition = some d ∧ d ≠ fname := by
        rcases List.mem_cons.mp hf with rfl | hf2
        · exfalso
          have : datasetNameOf f.definition = some dn0 := by
            simp [datasetNameOf, htab, hdn0]
          rw [this] at hdn
          cases hdn
          exact hne hmatch
        · exact ⟨f, hf2, dn, hdn, hne⟩
      obtain ⟨d, hdne, ⟨g, hg, hgd⟩, hcol⟩ :=
        ih (fun g hg => hwf g (List.mem_cons.mpr (Or.inr hg))) htail
      exact ⟨d, hdne, ⟨g, List.mem_cons.mpr (Or.inr hg), hgd⟩,
        by simp [collectLowerNames, hhead, hcol]⟩
    · -- the head itself mismatches
      refine ⟨dn0, hmatch, ⟨f0, List.mem_cons_self _ _, by simp [datasetNameOf, htab, hdn0]⟩, ?_⟩
      have hhead : perFileLowerName fname f0 = Except.error (datasetMismatchMsg dn0 fname) := by
        have hne2 : fname ≠ dn0 := fun h => hmatch h.symm
        simp [perFileLowerName, htab, hdn0, data_isEmpty_false_of_ne hdn0ne, hne2]
      simp [collectLowerNames, hhead]

/-! ### Lemmas about the shape of a successfully built task list -/

theorem filter_isSensor_map_parse (l : List String) :
    (l.map Task.parse).filter Task.isSensor = [] := by
  induction l with
  | nil => rfl
  | cons a as ih => simp [List.filter_cons, Task.isSensor, ih]

theorem filter_isSensor_map_view (l : List String) :
    (l.map Task.view).filter Task.isSensor = [] := by
  induction l with
  | nil => rfl
  | cons a as ih => simp [List.filter_cons, Task.isSensor, ih]

theorem filter_isView_map_parse (l : List String) :
    (l.map Task.parse).filter Task.isView = [] := by
  induction l with
  | nil => rfl
  | cons a as ih => simp [List.filter_cons, Task.isView, ih]

theorem filter_isView_map_view (l : List String) :
    (l.map Task.view).filter Task.isView = l.map Task.view := by
  induction l with
  | nil => rfl
  | cons a as ih => simp [List.filter_cons, Task.isView, ih]

/-- The task list splits at the checkpoint: everything before it is the
sensor and the parse tasks, everything after it the view tasks. -/
theorem tasks_decomp (ids views : List String) :
    Task.sensor :: (ids.map Task.parse ++ [Task.checkpoint] ++ views.map Task.view)
      = (Task.sensor :: ids.map Task.parse) ++ Task.checkpoint :: views.map Task.view := by
  simp

theorem mem_ids_of_parse_mem {ids views : List String} {t : String}
    (h : Task.parse t ∈ Task.sensor :: (ids.map Task.parse
      ++ [Task.checkpoint] ++ views.map Task.view)) : t ∈ ids := by
  rcases List.mem_cons.mp h with hc | h2
  · cases hc
  · rcases List.mem_append.mp h2 with h3 | h4
    · rcases List.mem_append.mp h3 with h5 | h6
      · obtain ⟨a, ha, heq⟩ := List.mem_map.mp h5
        cases heq
        exact ha
      · cases List.mem_singleton.mp h6
    · obtain ⟨v, _, heq⟩ := List.mem_map.mp h4
      cases heq

theorem mem_views_of_view_mem {ids views : List String} {v : String}
    (h : Task.view v ∈ Task.sensor :: (ids.map Task.parse
      ++ [Task.checkpoint] ++ views.map Task.view)) : v ∈ views := by
  rcases List.mem_cons.mp h with hc | h2
  · cases hc
  · rcases List.mem_append.mp h2 with h3 | h4
    · rcases List.mem_append.mp h3 with h5 | h6
      · obtain ⟨a, _, heq⟩ := List.mem_map.mp h5
        cases heq
      · cases List.mem_singleton.mp h6
    · obtain ⟨w, hw, heq⟩ := List.mem_map.mp h4
      cases heq
      exact hw

/-! ### Example definition files instantiating the claims -/

/-- `d/a.json`: table `a` of dataset `d`, no reference tag. -/
def exA : JsonFile :=
  { path := "d/a.json"
    definition :=
      { table := some { dataset_name := some "d", table_name := some "a" }
        parser := { contract_address := some "0x12" } } }

/-- `d/b.json`: table `b` of dataset `d`, referencing table `a`. -/
def exB : JsonFile :=
  { path := "d/b.json"
    definition :=
      { table := some { dataset_name := some "d", table_name := some "b" }
        parser := { contract_address := some "ref('a')" } } }

/-- `d/b.json` variant referencing a table that is not in the dataset. -/
def exBadRef : JsonFile :=
  { path := "d/b.json"
    definition :=
      { table := some { dataset_name := some "d", table_name := some "b" }
        parser := { contract_address := some "ref('missing')" } } }

/-- `d/Foo.json` and `d/foo.json`: table names differing only by case. -/
def exFooUpper : JsonFile :=
  { path := "d/Foo.json"
    definition :=
      { table := some { dataset_name := some "d", table_name := some "Foo" }
        parser := { contract_address := none } } }

def exFooLower : JsonFile :=
  { path := "d/foo.json"
    definition :=
      { table := some { dataset_name := some "d", table_name := some "foo" }
        parser := { contract_address := none } } }

/-- `d/z.json`: a definition with an empty `table` section. -/
def exEmptyTable : JsonFile :=
  { path := "d/z.json"
    definition := { table := none, parser := { contract_address := none } } }

/-- `mydataset/foo.json` declaring `dataset_name` `other`. -/
def exOther : JsonFile :=
  { path := "mydataset/foo.json"
    definition :=
      { table := some { dataset_name := some "other", table_name := some "foo" }
        parser := { contract_address := none } } }

/-- `d/c.json`: table `c` with a null `contract_address`. -/
def exNullCA : JsonFile :=
  { path := "d/c.json"
    definition :=
      { table := some { dataset_name := some "d", table_name := some "c" }
        parser := { contract_address := none } } }

/-! ### Claims -/

/-- C1 counterexample: a dataset folder whose definitions pass validation
but whose `ref()` tag names a table absent from the set makes
`build_parse_dag` itself raise the `ValueError` (modelled as
`Except.error`), aborting the multi-dataset build loop, instead of
returning a placeholder-task DAG.  So only the first of the two
build-time error classes is converted to a placeholder task. -/
theorem claim_C1_counterexample :
    validate_definition_files "d" [exBadRef] = Except.ok () ∧
    build_parse_dag "d" [exBadRef] [] = Except.error (missingDepMsg "missing") :=
  ⟨rfl, rfl⟩

/-- C1 (amended): of the two build-time error classes, only the
malformed/inconsistent-definition errors raised by
`validate_definition_files` are caught during graph construction; those
result in the dataset's graph being replaced by a single placeholder
task that re-raises the captured error when executed.  Unresolved
dependency references instead make `build_parse_dag` itself raise,
aborting the multi-dataset build loop (see the counterexample). -/
theorem claim_C1 (folder : String) (files : List JsonFile) (sqls : List String)
    (e : String) (h : validate_definition_files folder files = Except.error e) :
    build_parse_dag folder files sqls
      = Except.ok { tasks := [Task.validationError e], edges := [] } ∧
    Task.run (Task.validationError e) = Except.error e :=
  ⟨build_of_validate_error h, rfl⟩

theorem claim_C1_witness :
    build_parse_dag "d" [exEmptyTable] []
      = Except.ok { tasks := [Task.validationError "table is empty in file d/z.json"], edges := ([] : List (Task × Task)) } ∧
    Task.run (Task.validationError "table is empty in file d/z.json")
      = Except.error "table is empty in file d/z.json" :=
  claim_C1 "d" [exEmptyTable] [] "table is empty in file d/z.json" rfl

/-- C2: for every set of table definitions in which some definition's
`contract_address` contains a reference tag naming a table absent from
the set, graph construction fails with a `ValueError` whose message names
the missing dependency; no DAG is returned (the error propagates before
the graph is handed to the scheduler). -/
theorem claim_C2 (folder : String) (files : List JsonFile) (sqls : List String)
    (hv : validate_definition_files folder files = Except.ok ())
    (hmiss : ∃ f ∈ files, ∃ d ∈ depsOf f.definition, d ∉ parseIdsOf files) :
    ∃ d, d ∉ parseIdsOf files ∧
      build_parse_dag folder files sqls = Except.error (missingDepMsg d) ∧
      containsSubstr (missingDepMsg d) d = true := by
  have hmiss2 : ∃ p ∈ parseEntriesOf files, ∃ d ∈ p.2, d ∉ parseIdsOf files := by
    obtain ⟨f, hf, d, hd, hnot⟩ := hmiss
    refine ⟨(strOrEmpty (tableNameOf f.definition), depsOf f.definition), ?_, d, hd, hnot⟩
    simp only [parseEntriesOf]
    exact List.mem_map_of_mem _ hf
  obtain ⟨e, he⟩ := wireAll_error_of_missing hmiss2
  obtain ⟨d, hnot, rfl⟩ := wireAll_error he
  refine ⟨d, hnot, ?_, ?_⟩
  · simp only [build_parse_dag, hv, he]
  · exact containsSubstr_sandwich "Table " d
      " is not found in the the dataset. Check your ref() in contract_address field."

theorem claim_C2_witness :
    ∃ d, d ∉ parseIdsOf [exA, exBadRef] ∧
      build_parse_dag "d" [exA, exBadRef] [] = Except.error (missingDepMsg d) ∧
      containsSubstr (missingDepMsg d) d = true :=
  claim_C2 "d" [exA, exBadRef] [] rfl
    ⟨exBadRef, by decide, "missing", by decide, by decide⟩

/-- C3 counterexample: with table names `Foo` and `foo` (differing only
by case), validation fails, but the combined message contains only the
lowercased name `foo`; the offending table name `Foo` does not occur in
the message, so the message does not name both offending tables as
written. -/
theorem claim_C3_counterexample :
    tableNameOf exFooUpper.definition = some "Foo" ∧
    tableNameOf exFooLower.definition = some "foo" ∧
    validate_definition_files "d" [exFooUpper, exFooLower]
      = Except.error "The following table names are not unique foo" ∧
    containsSubstr "The following table names are not unique foo" "Foo" = false :=
  ⟨rfl, rfl, rfl, rfl⟩

/-- C3 (amended): for every definition set containing two definitions
whose `table_name` values differ only by letter case, validation fails
with a single combined error message that names the shared lowercased
table name (identifying both offending tables case-insensitively, not
their original spellings); all case-insensitive uniqueness violations
across the set are collected and reported together in that one message,
not just the first. -/
theorem claim_C3 (folder : String) (files : List JsonFile) (names : List String)
    (hcol : collectLowerNames (datasetFolderNameOf folder) files = Except.ok names)
    (hdup : ∃ n, 2 ≤ names.count n) :
    ∃ msg, validate_definition_files folder files = Except.error msg ∧
      ∀ m, 2 ≤ names.count m → containsSubstr msg m = true := by
  obtain ⟨n, hn⟩ := hdup
  have hmem : n ∈ nonUniqueTableNames names := mem_nonUnique_of_count hn
  have hpos : 0 < (nonUniqueTableNames names).length :=
    List.length_pos.mpr (List.ne_nil_of_mem hmem)
  refine ⟨"The following table names are not unique "
    ++ joinComma (nonUniqueTableNames names), ?_, ?_⟩
  · simp only [validate_definition_files, hcol]
    rw [if_pos hpos]
  · intro m hm
    exact containsSubstr_append_left_str _
      (containsSubstr_joinComma (mem_nonUnique_of_count hm))

theorem claim_C3_witness :
    ∃ msg, validate_definition_files "d" [exFooUpper, exFooLower] = Except.error msg ∧
      ∀ m, 2 ≤ (["foo", "foo"] : List String).count m → containsSubstr msg m = true :=
  claim_C3 "d" [exFooUpper, exFooLower] ["foo", "foo"] rfl ⟨"foo", by decide⟩

/-- C9: for every dataset folder whose definitions fail validation with a
`ValueError`, the returned graph contains exactly one task, named
`validation_error`, which is neither a parse task, nor the upstream
sensor, nor the checkpoint barrier, nor a view task, and the graph has no
edges — construction stops before any of those are registered. -/
theorem claim_C9 (folder : String) (files : List JsonFile) (sqls : List String)
    (e : String) (h : validate_definition_files folder files = Except.error e) :
    build_parse_dag folder files sqls
      = Except.ok { tasks := [Task.validationError e], edges := [] } ∧
    Task.taskId (Task.validationError e) = "validation_error" ∧
    Task.isParse (Task.validationError e) = false ∧
    Task.isSensor (Task.validationError e) = false ∧
    Task.isCheckpoint (Task.validationError e) = false ∧
    Task.isView (Task.validationError e) = false :=
  ⟨build_of_validate_error h, rfl, rfl, rfl, rfl, rfl⟩

theorem claim_C9_witness :
    build_parse_dag "mydataset" [exOther] ["mydataset/v1.sql"]
      = Except.ok { tasks := [Task.validationError (datasetMismatchMsg "other" "mydataset")], edges := ([] : List (Task × Task)) } ∧
    Task.taskId (Task.validationError (datasetMismatchMsg "other" "mydataset"))
      = "validation_error" ∧
    Task.isParse (Task.validationError (datasetMismatchMsg "other" "mydataset")) = false ∧
    Task.isSensor (Task.validationError (datasetMismatchMsg "other" "mydataset")) = false ∧
    Task.isCheckpoint (Task.validationError (datasetMismatchMsg "other" "mydataset")) = false ∧
    Task.isView (Task.validationError (datasetMismatchMsg "other" "mydataset")) = false :=
  claim_C9 "mydataset" [exOther] ["mydataset/v1.sql"]
    (datasetMismatchMsg "other" "mydataset") rfl

/-- C4: for every pair of definitions A and B where A declares no
dependencies and B's `contract_address` contains a reference tag naming
A, the produced graph has an edge from A's parse task to B's parse task
and an edge from each of A and B into the checkpoint barrier, and every
parse task is created strictly before the checkpoint barrier. -/
theorem claim_C4 (folder : String) (files : List JsonFile) (sqls : List String)
    (dag : Dag) (fA fB : JsonFile) (A B : String)
    (hv : validate_definition_files folder files = Except.ok ())
    (hb : build_parse_dag folder files sqls = Except.ok dag)
    (hAmem : fA ∈ files) (hBmem : fB ∈ files)
    (hA : tableNameOf fA.definition = some A)
    (hB : tableNameOf fB.definition = some B)
    (_hAnodeps : depsOf fA.definition = [])
    (href : A ∈ depsOf fB.definition) :
    ((Task.parse A, Task.parse B) ∈ dag.edges ∧
      (Task.parse A, Task.checkpoint) ∈ dag.edges ∧
      (Task.parse B, Task.checkpoint) ∈ dag.edges) ∧
    ∀ t, Task.parse t ∈ dag.tasks →
      createdBefore dag.tasks (Task.parse t) Task.checkpoint := by
  obtain ⟨depEdges, hw, htasks, hedges⟩ := build_ok_elim hv hb
  have hAentry : (A, depsOf fA.definition) ∈ parseEntriesOf files := by
    have := List.mem_map_of_mem
      (fun f => (strOrEmpty (tableNameOf f.definition), depsOf f.definition)) hAmem
    simpa [parseEntriesOf, hA, strOrEmpty] using this
  have hBentry : (B, depsOf fB.definition) ∈ parseEntriesOf files := by
    have := List.mem_map_of_mem
      (fun f => (strOrEmpty (tableNameOf f.definition), depsOf f.definition)) hBmem
    simpa [parseEntriesOf, hB, strOrEmpty] using this
  obtain ⟨hAcheck, -⟩ := wireAll_ok_mem hw _ hAentry
  obtain ⟨hBcheck, hBdeps⟩ := wireAll_ok_mem hw _ hBentry
  refine ⟨⟨?_, ?_, ?_⟩, ?_⟩
  · rw [hedges]
    exact List.mem_append.mpr (Or.inl (List.mem_append.mpr (Or.inr (hBdeps A href))))
  · rw [hedges]
    exact List.mem_append.mpr (Or.inl (List.mem_append.mpr (Or.inr hAcheck)))
  · rw [hedges]
    exact List.mem_append.mpr (Or.inl (List.mem_append.mpr (Or.inr hBcheck)))
  · intro t ht
    rw [htasks] at ht ⊢
    rw [tasks_decomp]
    apply createdBefore_of_mem_left
    exact List.mem_cons.mpr (Or.inr (List.mem_map_of_mem _ (mem_ids_of_parse_mem ht)))

/-- The DAG built from `exA`, `exB` and one view file. -/
def dagAB : Dag :=
  { tasks := [Task.sensor, Task.parse "a", Task.parse "b", Task.checkpoint, Task.view "v1"]
    edges := [(Task.sensor, Task.parse "a"), (Task.sensor, Task.parse "b"),
      (Task.parse "a", Task.checkpoint), (Task.parse "a", Task.parse "b"),
      (Task.parse "b", Task.checkpoint), (Task.checkpoint, Task.view "v1")] }

theorem claim_C4_witness :
    ((Task.parse "a", Task.parse "b") ∈ dagAB.edges ∧
      (Task.parse "a", Task.checkpoint) ∈ dagAB.edges ∧
      (Task.parse "b", Task.checkpoint) ∈ dagAB.edges) ∧
    ∀ t, Task.parse t ∈ dagAB.tasks →
      createdBefore dagAB.tasks (Task.parse t) Task.checkpoint :=
  claim_C4 "d" [exA, exB] ["d/v1.sql"] dagAB exA exB "a" "b" rfl rfl
    (by decide) (by decide) rfl rfl rfl (by decide)

/-- C5: for every successful build from a folder with N SQL files, the
graph contains exactly the N view tasks, one per SQL file, named by the
file's base name minus its extension; every view task's only upstream
neighbour is the checkpoint barrier, and no edge leaves a view task or
enters one from a parse task. -/
theorem claim_C5 (folder : String) (files : List JsonFile) (sqls : List String)
    (dag : Dag)
    (hv : validate_definition_files folder files = Except.ok ())
    (hb : build_parse_dag folder files sqls = Except.ok dag) :
    dag.tasks.filter Task.isView = (viewNamesOf sqls).map Task.view ∧
    (dag.tasks.filter Task.isView).length = sqls.length ∧
    (∀ p ∈ sqls, Task.view (viewNameOf p) ∈ dag.tasks) ∧
    (∀ v, Task.view v ∈ dag.tasks → (Task.checkpoint, Task.view v) ∈ dag.edges) ∧
    (∀ e ∈ dag.edges, Task.isView e.2 = true → e.1 = Task.checkpoint) ∧
    (∀ e ∈ dag.edges, Task.isView e.1 = false) := by
  obtain ⟨depEdges, hw, htasks, hedges⟩ := build_ok_elim hv hb
  have hfilter : dag.tasks.filter Task.isView = (viewNamesOf sqls).map Task.view := by
    rw [htasks]
    simp [List.filter_cons, List.filter_append, Task.isView,
      filter_isView_map_parse, filter_isView_map_view]
  refine ⟨hfilter, ?_, ?_, ?_, ?_, ?_⟩
  · rw [hfilter]
    simp [viewNamesOf]
  · intro p hp
    rw [htasks]
    refine List.mem_cons.mpr (Or.inr (List.mem_append.mpr (Or.inr ?_)))
    exact List.mem_map_of_mem _ (List.mem_map_of_mem _ hp)
  · intro v hv2
    rw [htasks] at hv2
    have hmem : v ∈ viewNamesOf sqls := mem_views_of_view_mem hv2
    rw [hedges]
    exact List.mem_append.mpr (Or.inr (List.mem_map.mpr ⟨v, hmem, rfl⟩))
  · intro e he hview
    rw [hedges] at he
    rcases List.mem_append.mp he with h1 | h2
    · rcases List.mem_append.mp h1 with h3 | h4
      · obtain ⟨t, _, rfl⟩ := List.mem_map.mp h3
        cases hview
      · rcases wireAll_ok_shape hw e h4 with ⟨d, t, rfl⟩ | ⟨t, rfl⟩
        · cases hview
        · cases hview
    · obtain ⟨w, _, rfl⟩ := List.mem_map.mp h2
      rfl
  · intro e he
    rw [hedges] at he
    rcases List.mem_append.mp he with h1 | h2
    · rcases List.mem_append.mp h1 with h3 | h4
      · obtain ⟨t, _, rfl⟩ := List.mem_map.mp h3
        rfl
      · rcases wireAll_ok_shape hw e h4 with ⟨d, t, rfl⟩ | ⟨t, rfl⟩ <;> rfl
    · obtain ⟨w, _, rfl⟩ := List.mem_map.mp h2
      rfl

/-- The DAG built from `exA` alone and the three view files of the spec's
example. -/
def dagV3 : Dag :=
  { tasks := [Task.sensor, Task.parse "a", Task.checkpoint,
      Task.view "v1", Task.view "v2", Task.view "v3"]
    edges := [(Task.sensor, Task.parse "a"), (Task.parse "a", Task.checkpoint),
      (Task.checkpoint, Task.view "v1"), (Task.checkpoint, Task.view "v2"),
      (Task.checkpoint, Task.view "v3")] }

theorem claim_C5_witness :
    dagV3.tasks.filter Task.isView
        = (viewNamesOf ["d/v1.sql", "d/v2.sql", "d/v3.sql"]).map Task.view ∧
    (dagV3.tasks.filter Task.isView).length
        = (["d/v1.sql", "d/v2.sql", "d/v3.sql"] : List String).length ∧
    (∀ p ∈ (["d/v1.sql", "d/v2.sql", "d/v3.sql"] : List String),
      Task.view (viewNameOf p) ∈ dagV3.tasks) ∧
    (∀ v, Task.view v ∈ dagV3.tasks → (Task.checkpoint, Task.view v) ∈ dagV3.edges) ∧
    (∀ e ∈ dagV3.edges, Task.isView e.2 = true → e.1 = Task.checkpoint) ∧
    (∀ e ∈ dagV3.edges, Task.isView e.1 = false) :=
  claim_C5 "d" [exA] ["d/v1.sql", "d/v2.sql", "d/v3.sql"] dagV3 rfl rfl

/-- C8: for every successfully validated build, the graph contains
exactly one upstream sensor task; it waits on the partition-loading
DAG's `done` marker with a fixed 30-minute grace delta, 20 retries, a
108000-second total wait ceiling and `reschedule` (deferred) polling
mode, and every parse task has an edge from this sensor. -/
theorem claim_C8 (folder : String) (files : List JsonFile) (sqls : List String)
    (dag : Dag)
    (hv : validate_definition_files folder files = Except.ok ())
    (hb : build_parse_dag folder files sqls = Except.ok dag) :
    dag.tasks.filter Task.isSensor = [Task.sensor] ∧
    wait_for_ethereum_load_dag_task.external_dag_id = "polygon_partition_dag" ∧
    wait_for_ethereum_load_dag_task.external_task_id = "done" ∧
    wait_for_ethereum_load_dag_task.execution_delta_minutes = 30 ∧
    wait_for_ethereum_load_dag_task.mode = "reschedule" ∧
    wait_for_ethereum_load_dag_task.retries = 20 ∧
    wait_for_ethereum_load_dag_task.poke_interval_seconds = 300 ∧
    wait_for_ethereum_load_dag_task.timeout_seconds = 108000 ∧
    ∀ t, Task.parse t ∈ dag.tasks → (Task.sensor, Task.parse t) ∈ dag.edges := by
  obtain ⟨depEdges, hw, htasks, hedges⟩ := build_ok_elim hv hb
  refine ⟨?_, rfl, rfl, rfl, rfl, rfl, rfl, rfl, ?_⟩
  · rw [htasks]
    simp [List.filter_cons, List.filter_append, Task.isSensor,
      filter_isSensor_map_parse, filter_isSensor_map_view]
  · intro t ht
    rw [htasks] at ht
    have hid : t ∈ parseIdsOf files := mem_ids_of_parse_mem ht
    rw [hedges]
    exact List.mem_append.mpr (Or.inl (List.mem_append.mpr (Or.inl
      (List.mem_map.mpr ⟨t, hid, rfl⟩))))

theorem claim_C8_witness :
    dagAB.tasks.filter Task.isSensor = [Task.sensor] ∧
    wait_for_ethereum_load_dag_task.external_dag_id = "polygon_partition_dag" ∧
    wait_for_ethereum_load_dag_task.external_task_id = "done" ∧
    wait_for_ethereum_load_dag_task.execution_delta_minutes = 30 ∧
    wait_for_ethereum_load_dag_task.mode = "reschedule" ∧
    wait_for_ethereum_load_dag_task.retries = 20 ∧
    wait_for_ethereum_load_dag_task.poke_interval_seconds = 300 ∧
    wait_for_ethereum_load_dag_task.timeout_seconds = 108000 ∧
    ∀ t, Task.parse t ∈ dagAB.tasks → (Task.sensor, Task.parse t) ∈ dagAB.edges :=
  claim_C8 "d" [exA, exB] ["d/v1.sql"] dagAB rfl rfl

/-- C10: for every table definition whose `parser.contract_address` is
null, the extractor's `None` branch yields an empty dependency list, and
the definition's parse task is still created, with an edge from the
upstream sensor and an edge into the checkpoint barrier. -/
theorem claim_C10 (folder : String) (files : List JsonFile) (sqls : List String)
    (dag : Dag) (f : JsonFile) (tn : String)
    (hv : validate_definition_files folder files = Except.ok ())
    (hb : build_parse_dag folder files sqls = Except.ok dag)
    (hf : f ∈ files)
    (htn : tableNameOf f.definition = some tn)
    (hca : f.definition.parser.contract_address = none) :
    depsOf f.definition = [] ∧
    Task.parse tn ∈ dag.tasks ∧
    (Task.sensor, Task.parse tn) ∈ dag.edges ∧
    (Task.parse tn, Task.checkpoint) ∈ dag.edges := by
  obtain ⟨depEdges, hw, htasks, hedges⟩ := build_ok_elim hv hb
  have hdeps : depsOf f.definition = [] := by simp [depsOf, hca]
  have hid : tn ∈ parseIdsOf files := by
    have := List.mem_map_of_mem (fun f => strOrEmpty (tableNameOf f.definition)) hf
    simpa [parseIdsOf, htn, strOrEmpty] using this
  have hentry : (tn, depsOf f.definition) ∈ parseEntriesOf files := by
    have := List.mem_map_of_mem
      (fun f => (strOrEmpty (tableNameOf f.definition), depsOf f.definition)) hf
    simpa [parseEntriesOf, htn, strOrEmpty] using this
  obtain ⟨hcheck, -⟩ := wireAll_ok_mem hw _ hentry
  refine ⟨hdeps, ?_, ?_, ?_⟩
  · rw [htasks]
    exact List.mem_cons.mpr (Or.inr (List.mem_append.mpr (Or.inl
      (List.mem_append.mpr (Or.inl (List.mem_map_of_mem _ hid))))))
  · rw [hedges]
    exact List.mem_append.mpr (Or.inl (List.mem_append.mpr (Or.inl
      (List.mem_map.mpr ⟨tn, hid, rfl⟩))))
  · rw [hedges]
    exact List.mem_append.mpr (Or.inl (List.mem_append.mpr (Or.inr hcheck)))

/-- The DAG built from `exNullCA` alone. -/
def dagC : Dag :=
  { tasks := [Task.sensor, Task.parse "c", Task.checkpoint]
    edges := [(Task.sensor, Task.parse "c"), (Task.parse "c", Task.checkpoint)] }

theorem claim_C10_witness :
    depsOf exNullCA.definition = [] ∧
    Task.parse "c" ∈ dagC.tasks ∧
    (Task.sensor, Task.parse "c") ∈ dagC.edges ∧
    (Task.parse "c", Task.checkpoint) ∈ dagC.edges :=
  claim_C10 "d" [exNullCA] [] dagC exNullCA "c" rfl rfl (by decide) rfl rfl

/-- C6: for every definition set in which every definition has a
non-empty `table` section, a `dataset_name` equal to the containing
folder's name, a `table_name` equal to the defining file's base name
with the `.json` extension stripped (case-sensitive comparison), and all
table names are unique after lowercasing, validation completes without
raising any error. -/
theorem claim_C6 (folder : String) (files : List JsonFile)
    (hwf : ∀ f ∈ files, WellFormedFile (datasetFolderNameOf folder) f)
    (hnodup : (lowerNamesOf files).Nodup) :
    validate_definition_files folder files = Except.ok () := by
  have hcol := collect_ok_of_wellFormed hwf
  have hnil := nonUnique_eq_nil_of_nodup hnodup
  simp [validate_definition_files, hcol, hnil]

theorem claim_C6_witness :
    validate_definition_files "d" [exA, exB] = Except.ok () :=
  claim_C6 "d" [exA, exB]
    (by
      intro f hf
      rcases List.mem_cons.mp hf with rfl | hf2
      · exact ⟨_, "a", rfl, by decide, by decide, rfl, by decide, by decide⟩
      · rcases List.mem_singleton.mp hf2 with rfl
        exact ⟨_, "b", rfl, by decide, by decide, rfl, by decide, by decide⟩)
    (by decide)

/-- C7: for every dataset folder whose name differs from some contained
definition's declared `table.dataset_name` (all other per-file checks
passing), validation fails with an error message citing both the
declared `dataset_name` and the folder name. -/
theorem claim_C7 (folder : String) (files : List JsonFile)
    (hwf : ∀ f ∈ files, WellFormedAfterDataset f)
    (hmism : ∃ f ∈ files, ∃ dn, datasetNameOf f.definition = some dn ∧
      dn ≠ datasetFolderNameOf folder) :
    ∃ dn, dn ≠ datasetFolderNameOf folder ∧
      (∃ f ∈ files, datasetNameOf f.definition = some dn) ∧
      validate_definition_files folder files
        = Except.error (datasetMismatchMsg dn (datasetFolderNameOf folder)) ∧
      containsSubstr (datasetMismatchMsg dn (datasetFolderNameOf folder)) dn = true ∧
      containsSubstr (datasetMismatchMsg dn (datasetFolderNameOf folder))
        (datasetFolderNameOf folder) = true := by
  obtain ⟨dn, hne, hex, hcol⟩ := collect_mismatch hwf hmism
  refine ⟨dn, hne, hex, ?_, ?_, ?_⟩
  · simp only [validate_definition_files, hcol]
  · have hassoc : datasetMismatchMsg dn (datasetFolderNameOf folder)
        = "dataset_name " ++ dn ++ (" is not equal to dataset_folder_name "
          ++ datasetFolderNameOf folder) :=
      String.ext (by simp [datasetMismatchMsg, String.data_append])
    rw [hassoc]
    exact containsSubstr_sandwich "dataset_name " dn _
  · exact containsSubstr_append_right
      ("dataset_name " ++ dn ++ " is not equal to dataset_folder_name ")
      (datasetFolderNameOf folder)

theorem claim_C7_witness :
    ∃ dn, dn ≠ datasetFolderNameOf "mydataset" ∧
      (∃ f ∈ [exOther], datasetNameOf f.definition = some dn) ∧
      validate_definition_files "mydataset" [exOther]
        = Except.error (datasetMismatchMsg dn (datasetFolderNameOf "mydataset")) ∧
      containsSubstr (datasetMismatchMsg dn (datasetFolderNameOf "mydataset")) dn = true ∧
      containsSubstr (datasetMismatchMsg dn (datasetFolderNameOf "mydataset"))
        (datasetFolderNameOf "mydataset") = true :=
  claim_C7 "mydataset" [exOther]
    (by
      intro f hf
      rcases List.mem_singleton.mp hf with rfl
      exact ⟨_, "foo", "other", rfl, rfl, by decide, rfl, by decide, by decide⟩)
    ⟨exOther, by decide, "other", rfl, by decide⟩

end BuildParseDag
